import Mathlib

/-!
Shallow embedding of the simple-dashboard PR-turn engine:
the GitHub data model, the turn-decision functions `determineMyPrTurn` and
`determineReviewRequestTurn`, the review summary `buildReviewSummary`
(src/unnamed/part_005), and the API route's dedup / sort / error-classification
logic (src/app/api/prs/route.ts).

JavaScript `Set` and `Map` are modelled as insertion-ordered lists with
dedup-on-insert (`setAdd`) and last-write-wins update (`mapSet`), matching
their iteration-order semantics.  String `toLowerCase` is modelled as a
character-wise lowering (`lowerString`).
-/

namespace Dashboard

/-- Review states from the GitHub API (`GitHubReview.state` in types.ts). -/
inductive ReviewState where
  | APPROVED
  | CHANGES_REQUESTED
  | COMMENTED
  | DISMISSED
  | PENDING
deriving DecidableEq, Repr

/-- GitHub user: only the `login` field is inspected by the core logic. -/
structure GitHubUser where
  login : String
deriving DecidableEq, Repr

/-- A submitted (or pending) review: reviewer identity plus state.
The review list is chronologically ordered, as returned by the API. -/
structure GitHubReview where
  user : GitHubUser
  state : ReviewState
deriving DecidableEq, Repr

/-- A team with a pending review request. -/
structure GitHubTeam where
  name : String
deriving DecidableEq, Repr

/-- Turn verdict: `my-turn` or `their-turn`. -/
inductive TurnStatus where
  | myTurn
  | theirTurn
deriving DecidableEq, Repr

/-- The `SUBMITTED_STATES` set from github.ts: review states that count as feedback. -/
def SUBMITTED_STATES : List ReviewState :=
  [.APPROVED, .CHANGES_REQUESTED, .COMMENTED, .DISMISSED]

/-- Model of JavaScript `String.prototype.toLowerCase`. -/
def lowerString (s : String) : String :=
  ⟨s.data.map Char.toLower⟩

/-- JS `Set.add`: append if absent (insertion-ordered, deduplicated). -/
def setAdd (s : List String) (x : String) : List String :=
  if x ∈ s then s else s ++ [x]

/-- JS `Map.set`: update in place if the key is present, else append. -/
def mapSet {α β : Type} [DecidableEq α] (m : List (α × β)) (k : α) (v : β) :
    List (α × β) :=
  if m.any (fun p => decide (p.1 = k)) then
    m.map (fun p => if p.1 = k then (k, v) else p)
  else m ++ [(k, v)]

/-- JS `Map.get`: value of the first (unique) entry with the given key. -/
def mapGet {α β : Type} [DecidableEq α] (m : List (α × β)) (k : α) : Option β :=
  (m.find? (fun p => decide (p.1 = k))).map (·.2)

/-- Step 1 of `determineMyPrTurn`: the set of (lowercased) logins of reviewers,
other than the author, with a submitted review. -/
def reviewersWhoSubmitted (reviews : List GitHubReview) (authorUsername : String) :
    List String :=
  reviews.foldl
    (fun acc review =>
      if review.state ∈ SUBMITTED_STATES ∧
          lowerString review.user.login ≠ lowerString authorUsername then
        setAdd acc (lowerString review.user.login)
      else acc)
    []

/-- The set of lowercased logins of the currently requested reviewers. -/
def requestedLogins (requestedReviewers : List GitHubUser) : List String :=
  requestedReviewers.foldl (fun acc r => setAdd acc (lowerString r.login)) []

/-- Loop body of step 4 of `determineMyPrTurn`: fold one review into the
latest-state-per-reviewer map, where a COMMENTED review does not overwrite a
previous CHANGES_REQUESTED or APPROVED. -/
def latestStep (authorUsername : String) (m : List (String × ReviewState))
    (review : GitHubReview) : List (String × ReviewState) :=
  if review.state ∈ SUBMITTED_STATES ∧
      lowerString review.user.login ≠ lowerString authorUsername then
    let login := lowerString review.user.login
    let prev := mapGet m login
    if (prev = some .CHANGES_REQUESTED ∨ prev = some .APPROVED) ∧
        review.state = .COMMENTED then
      m
    else mapSet m login review.state
  else m

/-- Latest review state per reviewer (excluding the author), from step 4 of
`determineMyPrTurn`. -/
def latestByUser (reviews : List GitHubReview) (authorUsername : String) :
    List (String × ReviewState) :=
  reviews.foldl (latestStep authorUsername) []

/-- Turn determination for authored PRs (`determineMyPrTurn` in github.ts).
Returns the verdict together with the deciding check's label. -/
def determineMyPrTurn (reviews : List GitHubReview)
    (requestedReviewers : List GitHubUser) (authorUsername : String)
    (mergeableState : Option String) : TurnStatus × String :=
  let submitted := reviewersWhoSubmitted reviews authorUsername
  if submitted = [] then
    (.theirTurn, "No reviews submitted yet")
  else
    let reqLogins := requestedLogins requestedReviewers
    if ∀ u ∈ submitted, u ∈ reqLogins then
      (.theirTurn, "All submitters re-requested")
    else
      let latest := latestByUser reviews authorUsername
      if ∃ p ∈ latest, p.2 = ReviewState.CHANGES_REQUESTED then
        (.myTurn, "Changes requested")
      else
        let stateStr := mergeableState.getD "null"
        let mergeResult : TurnStatus :=
          match mergeableState with
          | some "clean" => .myTurn
          | some "blocked" => .theirTurn
          | some "dirty" => .myTurn
          | some "unstable" => .myTurn
          | _ => .myTurn
        (mergeResult, "Mergeable state: " ++ stateStr)

/-- Turn determination for review-requested PRs
(`determineReviewRequestTurn` in github.ts). -/
def determineReviewRequestTurn (_reviews : List GitHubReview)
    (requestedReviewers : List GitHubUser) (requestedTeams : List GitHubTeam)
    (myUsername : String) (isReviewRequested : Bool) : TurnStatus × String :=
  if ∃ r ∈ requestedReviewers, lowerString r.login = lowerString myUsername then
    (.myTurn, "My review requested")
  else if isReviewRequested = true ∧ requestedTeams ≠ [] then
    (.myTurn, "My review requested (via team)")
  else
    (.theirTurn, "My review requested (via team)")

/-- Loop body of `buildReviewSummary`'s latest-state computation: keyed by
the raw login and not excluding the PR author. -/
def summaryLatestStep (m : List (String × ReviewState)) (review : GitHubReview) :
    List (String × ReviewState) :=
  if review.state ∈ SUBMITTED_STATES then
    let prev := mapGet m review.user.login
    if (prev = some .CHANGES_REQUESTED ∨ prev = some .APPROVED) ∧
        review.state = .COMMENTED then
      m
    else mapSet m review.user.login review.state
  else m

/-- Latest review state per reviewer as computed by `buildReviewSummary`. -/
def summaryLatestByUser (reviews : List GitHubReview) :
    List (String × ReviewState) :=
  reviews.foldl summaryLatestStep []

/-- The review summary string (`buildReviewSummary` in github.ts). -/
def buildReviewSummary (reviews : List GitHubReview)
    (requestedReviewers : List GitHubUser) (requestedTeams : List GitHubTeam) :
    String :=
  let vals := (summaryLatestByUser reviews).map (·.2)
  let approvedCount := vals.count ReviewState.APPROVED
  let changesCount := vals.count ReviewState.CHANGES_REQUESTED
  let commentedCount := vals.count ReviewState.COMMENTED
  let parts : List String :=
    (if approvedCount > 0 then [toString approvedCount ++ " approved"] else []) ++
    (if changesCount > 0 then [toString changesCount ++ " changes requested"] else []) ++
    (if commentedCount > 0 then [toString commentedCount ++ " commented"] else [])
  let pendingCount := requestedReviewers.length + requestedTeams.length
  let teamSuffix :=
    if requestedTeams.length > 0 then
      " (" ++ toString requestedTeams.length ++ " team" ++
        (if requestedTeams.length > 1 then "s" else "") ++ ")"
    else ""
  let allParts := parts ++
    (if pendingCount > 0 then [toString pendingCount ++ " pending" ++ teamSuffix] else [])
  if allParts ≠ [] then String.intercalate ", " allParts else "No reviews"

/-- A search result item (`GitHubSearchItem`), restricted to the fields the
route's dedup and enrichment logic reads. -/
structure GitHubSearchItem where
  id : Nat
  title : String
  user : GitHubUser
  updated_at : String
deriving DecidableEq, Repr

/-- An enriched PR (`DashboardPR`), restricted to the fields `sortPrs` reads
plus identifying data. -/
structure DashboardPR where
  id : Nat
  title : String
  turnStatus : TurnStatus
  updatedAt : String
deriving DecidableEq, Repr

/-- The comparator inside `sortPrs` (route.ts): `my-turn` first, then by
most-recent update.  `getTime` models `new Date(s).getTime()`. -/
def comparePrs (getTime : String → Int) (a b : DashboardPR) : Int :=
  if a.turnStatus ≠ b.turnStatus then
    if a.turnStatus = .myTurn then -1 else 1
  else getTime b.updatedAt - getTime a.updatedAt

/-- The `sortPrs` function from route.ts.  JavaScript sort is a stable
sort with respect to the comparator; it is modelled by the stable
`List.insertionSort` on the non-strict order induced by `comparePrs`. -/
def sortPrs (getTime : String → Int) (prs : List DashboardPR) : List DashboardPR :=
  List.insertionSort (fun a b => comparePrs getTime a b ≤ 0) prs

/-- The `reviewRequestedIds` set from route.ts: ids of the review-requested search
results. -/
def reviewRequestedIds (reviewRequestItems : List GitHubSearchItem) : List Nat :=
  reviewRequestItems.map (·.id)

/-- The `reviewItemsMap` from route.ts: review-requested and reviewed-by items
merged into a `Map` keyed by PR id. -/
def reviewItemsMap (reviewRequestItems reviewedByItems : List GitHubSearchItem) :
    List (Nat × GitHubSearchItem) :=
  (reviewRequestItems ++ reviewedByItems).foldl (fun m it => mapSet m it.id it) []

/-- The values of `reviewItemsMap`, before the self-author filter. -/
def mergedReviewItems (reviewRequestItems reviewedByItems : List GitHubSearchItem) :
    List GitHubSearchItem :=
  (reviewItemsMap reviewRequestItems reviewedByItems).map (·.2)

/-- The `dedupedReviewItems` list from route.ts: merged review items with PRs authored
by the viewer removed. -/
def dedupedReviewItems (reviewRequestItems reviewedByItems : List GitHubSearchItem)
    (githubUsername : String) : List GitHubSearchItem :=
  (mergedReviewItems reviewRequestItems reviewedByItems).filter
    (fun it => lowerString it.user.login ≠ lowerString githubUsername)

/-- The observable parts of an HTTP response inspected by `githubFetch`:
status, status text, the two rate-limit headers, and the body text. -/
structure HttpResponse where
  status : Nat
  statusText : String
  rateLimitRemaining : Option String
  rateLimitReset : Option String
  body : String

/-- The `ok` flag of a Fetch API response: status in the 200-299 range. -/
def resOk (res : HttpResponse) : Bool :=
  decide (200 ≤ res.status ∧ res.status < 300)

/-- Rate-limit detection in `githubFetch`: HTTP 429, or 403 with
`x-ratelimit-remaining: 0`. -/
def isRateLimitedResponse (res : HttpResponse) : Bool :=
  decide (res.status = 429 ∨ (res.status = 403 ∧ res.rateLimitRemaining = some "0"))

/-- The error message thrown by `githubFetch` on a non-success response
(`none` on success).  `fmtTime` models
`h => new Date(Number(h) * 1000).toLocaleTimeString()`. -/
def githubFetchError (fmtTime : String → String) (res : HttpResponse) :
    Option String :=
  if resOk res then none
  else if isRateLimitedResponse res then
    let resetInfo :=
      match res.rateLimitReset with
      | some h => " Resets at " ++ fmtTime h ++ "."
      | none => ""
    some ("RATE_LIMITED: GitHub API rate limit exceeded." ++ resetInfo)
  else
    some ("GitHub API " ++ toString res.status ++ ": " ++ res.statusText ++
      " - " ++ res.body.take 200)

/-- Error codes returned by the API route (`ErrorCode` in types.ts plus the
two codes produced by the search/enrichment failure handlers). -/
inductive ErrorCode where
  | RATE_LIMITED
  | GITHUB_API_ERROR
  | NO_GITHUB_ACCOUNT
  | UNAUTHORIZED
deriving DecidableEq, Repr

/-- The route's search-failure handler (route.ts lines 132-145): classify the
thrown message by its `RATE_LIMITED:` prefix and build (code, error, status). -/
def searchFailureResponse (message : String) : ErrorCode × String × Nat :=
  if message.startsWith "RATE_LIMITED:" then
    (.RATE_LIMITED, message.replace "RATE_LIMITED: " "", 429)
  else
    (.GITHUB_API_ERROR, "GitHub search failed: " ++ message, 502)

end Dashboard


namespace Dashboard

theorem mem_setAdd {s : List String} {x y : String} :
    y ∈ setAdd s x ↔ y ∈ s ∨ y = x := by
  unfold setAdd
  split
  · constructor
    · exact Or.inl
    · rintro (h | rfl)
      · exact h
      · assumption
  · simp

theorem setAdd_ne_nil {s : List String} {x : String} : setAdd s x ≠ [] := by
  unfold setAdd
  split
  · intro h
    subst h
    simp_all
  · simp

theorem mapGet_mem {α β : Type} [DecidableEq α] {m : List (α × β)} {k : α} {v : β}
    (h : mapGet m k = some v) : (k, v) ∈ m := by
  unfold mapGet at h
  obtain ⟨p, hfind, hp2⟩ := Option.map_eq_some'.1 h
  have hmem := List.mem_of_find?_eq_some hfind
  have hkey : p.1 = k := by
    have := List.find?_some hfind
    simpa using this
  have : (k, v) = p := by
    obtain ⟨p1, p2⟩ := p
    simp only at hkey hp2
    rw [hkey, hp2]
  rw [this]
  exact hmem

theorem mem_mapSet {α β : Type} [DecidableEq α] {m : List (α × β)} {k : α} {v : β}
    {p : α × β} (h : p ∈ mapSet m k v) : p ∈ m ∨ p = (k, v) := by
  unfold mapSet at h
  split at h
  · obtain ⟨q, hq, hfq⟩ := List.mem_map.1 h
    by_cases hk : q.1 = k
    · right
      rw [if_pos hk] at hfq
      exact hfq.symm
    · left
      rw [if_neg hk] at hfq
      rw [← hfq]
      exact hq
  · rcases List.mem_append.1 h with h' | h'
    · exact Or.inl h'
    · right
      simpa using h'

theorem mem_reviewersWhoSubmitted {reviews : List GitHubReview} {author u : String} :
    u ∈ reviewersWhoSubmitted reviews author ↔
      ∃ r ∈ reviews, (r.state ∈ SUBMITTED_STATES ∧
        lowerString r.user.login ≠ lowerString author) ∧
        lowerString r.user.login = u := by
  have aux : ∀ (l : List GitHubReview) (acc : List String),
      u ∈ l.foldl
        (fun acc review =>
          if review.state ∈ SUBMITTED_STATES ∧
              lowerString review.user.login ≠ lowerString author then
            setAdd acc (lowerString review.user.login)
          else acc) acc ↔
      u ∈ acc ∨ ∃ r ∈ l, (r.state ∈ SUBMITTED_STATES ∧
        lowerString r.user.login ≠ lowerString author) ∧
        lowerString r.user.login = u := by
    intro l
    induction l with
    | nil => simp
    | cons r l ih =>
      intro acc
      rw [List.foldl_cons, ih]
      by_cases hc : r.state ∈ SUBMITTED_STATES ∧
          lowerString r.user.login ≠ lowerString author
      · rw [if_pos hc, mem_setAdd]
        simp only [List.mem_cons]
        constructor
        · rintro ((h | rfl) | ⟨r', hr', hc', hk'⟩)
          · exact Or.inl h
          · exact Or.inr ⟨r, Or.inl rfl, hc, rfl⟩
          · exact Or.inr ⟨r', Or.inr hr', hc', hk'⟩
        · rintro (h | ⟨r', (rfl | hr'), hc', hk'⟩)
          · exact Or.inl (Or.inl h)
          · exact Or.inl (Or.inr hk'.symm)
          · exact Or.inr ⟨r', hr', hc', hk'⟩
      · rw [if_neg hc]
        simp only [List.mem_cons]
        constructor
        · rintro (h | ⟨r', hr', hc', hk'⟩)
          · exact Or.inl h
          · exact Or.inr ⟨r', Or.inr hr', hc', hk'⟩
        · rintro (h | ⟨r', (rfl | hr'), hc', hk'⟩)
          · exact Or.inl h
          · exact absurd hc' hc
          · exact Or.inr ⟨r', hr', hc', hk'⟩
  have := aux reviews []
  simpa using this

theorem mem_requestedLogins {reqs : List GitHubUser} {u : String} :
    u ∈ requestedLogins reqs ↔ ∃ r ∈ reqs, lowerString r.login = u := by
  have aux : ∀ (l : List GitHubUser) (acc : List String),
      u ∈ l.foldl (fun acc r => setAdd acc (lowerString r.login)) acc ↔
      u ∈ acc ∨ ∃ r ∈ l, lowerString r.login = u := by
    intro l
    induction l with
    | nil => simp
    | cons r l ih =>
      intro acc
      rw [List.foldl_cons, ih, mem_setAdd]
      simp only [List.mem_cons]
      constructor
      · rintro ((h | rfl) | ⟨r', hr', hk'⟩)
        · exact Or.inl h
        · exact Or.inr ⟨r, Or.inl rfl, rfl⟩
        · exact Or.inr ⟨r', Or.inr hr', hk'⟩
      · rintro (h | ⟨r', (rfl | hr'), hk'⟩)
        · exact Or.inl (Or.inl h)
        · exact Or.inl (Or.inr hk'.symm)
        · exact Or.inr ⟨r', hr', hk'⟩
  have := aux reqs []
  simpa using this

theorem latestByUser_key_mem {reviews : List GitHubReview} {author : String} :
    ∀ p ∈ latestByUser reviews author, p.1 ∈ reviewersWhoSubmitted reviews author := by
  have aux : ∀ (l : List GitHubReview) (accM : List (String × ReviewState))
      (accS : List String), (∀ p ∈ accM, p.1 ∈ accS) →
      ∀ p ∈ l.foldl (latestStep author) accM,
      p.1 ∈ l.foldl
        (fun acc review =>
          if review.state ∈ SUBMITTED_STATES ∧
              lowerString review.user.login ≠ lowerString author then
            setAdd acc (lowerString review.user.login)
          else acc) accS := by
    intro l
    induction l with
    | nil => intro accM accS h p hp;  exact h p hp
    | cons r l ih =>
      intro accM accS h p hp
      rw [List.foldl_cons] at hp ⊢
      by_cases hc : r.state ∈ SUBMITTED_STATES ∧
          lowerString r.user.login ≠ lowerString author
      · rw [if_pos hc]
        refine ih _ _ ?_ p hp
        intro q hq
        unfold latestStep at hq
        rw [if_pos hc] at hq
        simp only at hq
        split at hq
        · exact mem_setAdd.2 (Or.inl (h q hq))
        · rcases mem_mapSet hq with h' | h'
          · exact mem_setAdd.2 (Or.inl (h q h'))
          · exact mem_setAdd.2 (Or.inr (by rw [h']))
      · rw [if_neg hc]
        refine ih _ _ ?_ p hp
        intro q hq
        unfold latestStep at hq
        rw [if_neg hc] at hq
        exact h q hq
  intro p hp
  exact aux reviews [] [] (by simp) p hp

/-- C1: for every authored PR with at least one reviewer (other than the
author) whose effective latest submitted review state is CHANGES_REQUESTED and
who is not currently in the requested-reviewers set, `determineMyPrTurn`
returns my-turn, for every value of `mergeable_state`. -/
theorem claim_C1_changes_requested_always_my_turn
    (reviews : List GitHubReview) (requestedReviewers : List GitHubUser)
    (author u : String) (mergeableState : Option String)
    (hcr : mapGet (latestByUser reviews author) u = some .CHANGES_REQUESTED)
    (hnreq : u ∉ requestedLogins requestedReviewers) :
    determineMyPrTurn reviews requestedReviewers author mergeableState =
      (.myTurn, "Changes requested") := by
  have hpair : (u, ReviewState.CHANGES_REQUESTED) ∈ latestByUser reviews author :=
    mapGet_mem hcr
  have hsub : u ∈ reviewersWhoSubmitted reviews author :=
    latestByUser_key_mem _ hpair
  have hne : ¬reviewersWhoSubmitted reviews author = [] := by
    intro h
    rw [h] at hsub
    simp at hsub
  have hnall : ¬∀ x ∈ reviewersWhoSubmitted reviews author,
      x ∈ requestedLogins requestedReviewers := by
    intro hall
    exact hnreq (hall u hsub)
  have hex : ∃ p ∈ latestByUser reviews author,
      p.2 = ReviewState.CHANGES_REQUESTED :=
    ⟨(u, .CHANGES_REQUESTED), hpair, rfl⟩
  unfold determineMyPrTurn
  rw [if_neg hne, if_neg hnall, if_pos hex]

/-- Witness for C1 at a concrete input: bob requested changes and was not
re-requested, so the PR is my-turn even with `mergeable_state = "clean"`. -/
theorem claim_C1_witness :
    mapGet (latestByUser [⟨⟨"bob"⟩, .CHANGES_REQUESTED⟩] "me") "bob" =
      some .CHANGES_REQUESTED ∧
    "bob" ∉ requestedLogins [] ∧
    determineMyPrTurn [⟨⟨"bob"⟩, .CHANGES_REQUESTED⟩] [] "me" (some "clean") =
      (.myTurn, "Changes requested") :=
  ⟨by decide, by decide,
    claim_C1_changes_requested_always_my_turn [⟨⟨"bob"⟩, .CHANGES_REQUESTED⟩] []
      "me" "bob" (some "clean") (by decide) (by decide)⟩

/-- C2: for every authored PR that reaches the merge-detail step (some
feedback-giving reviewer, not all re-requested, no effective
CHANGES_REQUESTED), the merge-detail mapping is exact and terminal:
clean is my-turn, blocked is their-turn, dirty is my-turn, unstable is
my-turn, and null or any unrecognized value is my-turn, always deciding at
the "Mergeable state" check. -/
theorem claim_C2_merge_detail_mapping
    (reviews : List GitHubReview) (requestedReviewers : List GitHubUser)
    (author : String) (ms : Option String)
    (h1 : reviewersWhoSubmitted reviews author ≠ [])
    (h2 : ¬∀ u ∈ reviewersWhoSubmitted reviews author,
      u ∈ requestedLogins requestedReviewers)
    (h3 : ¬∃ p ∈ latestByUser reviews author,
      p.2 = ReviewState.CHANGES_REQUESTED) :
    (ms = some "clean" →
      determineMyPrTurn reviews requestedReviewers author ms =
        (.myTurn, "Mergeable state: clean")) ∧
    (ms = some "blocked" →
      determineMyPrTurn reviews requestedReviewers author ms =
        (.theirTurn, "Mergeable state: blocked")) ∧
    (ms = some "dirty" →
      determineMyPrTurn reviews requestedReviewers author ms =
        (.myTurn, "Mergeable state: dirty")) ∧
    (ms = some "unstable" →
      determineMyPrTurn reviews requestedReviewers author ms =
        (.myTurn, "Mergeable state: unstable")) ∧
    (ms = none →
      determineMyPrTurn reviews requestedReviewers author ms =
        (.myTurn, "Mergeable state: null")) ∧
    (∀ s, ms = some s → s ≠ "clean" → s ≠ "blocked" → s ≠ "dirty" →
      s ≠ "unstable" →
      determineMyPrTurn reviews requestedReviewers author ms =
        (.myTurn, "Mergeable state: " ++ s)) := by
  have key : determineMyPrTurn reviews requestedReviewers author ms =
      ((match ms with
        | some "clean" => TurnStatus.myTurn
        | some "blocked" => .theirTurn
        | some "dirty" => .myTurn
        | some "unstable" => .myTurn
        | _ => .myTurn), "Mergeable state: " ++ ms.getD "null") := by
    unfold determineMyPrTurn
    rw [if_neg h1, if_neg h2, if_neg h3]
  refine ⟨?_, ?_, ?_, ?_, ?_, ?_⟩
  · rintro rfl; rw [key]; rfl
  · rintro rfl; rw [key]; rfl
  · rintro rfl; rw [key]; rfl
  · rintro rfl; rw [key]; rfl
  · rintro rfl; rw [key]; rfl
  · rintro s rfl hc hb hd hu
    rw [key]
    simp only [Option.getD_some]
    congr 1
    split
    · simp_all
    · simp_all
    · simp_all
    · simp_all
    · rfl

/-- Witness for C2 at a concrete input: alice approved and was not
re-requested, so the blocked merge state decides their-turn. -/
theorem claim_C2_witness :
    reviewersWhoSubmitted [⟨⟨"alice"⟩, .APPROVED⟩] "me" ≠ [] ∧
    (¬∀ u ∈ reviewersWhoSubmitted [⟨⟨"alice"⟩, .APPROVED⟩] "me",
      u ∈ requestedLogins []) ∧
    (¬∃ p ∈ latestByUser [⟨⟨"alice"⟩, .APPROVED⟩] "me",
      p.2 = ReviewState.CHANGES_REQUESTED) ∧
    (some "blocked" = some "blocked" →
      determineMyPrTurn [⟨⟨"alice"⟩, .APPROVED⟩] [] "me" (some "blocked") =
        (.theirTurn, "Mergeable state: blocked")) :=
  ⟨by decide, by decide, by decide,
    (claim_C2_merge_detail_mapping [⟨⟨"alice"⟩, .APPROVED⟩] [] "me"
      (some "blocked") (by decide) (by decide) (by decide)).2.1⟩

/-- C4: an authored PR with no submitted review by anyone but the author is
their-turn, decided at the "No reviews submitted yet" check; and when the
feedback-giver set is non-empty but every member is currently re-requested,
the verdict is their-turn at the "All submitters re-requested" check,
regardless of review content. -/
theorem claim_C4_step1_and_step2_their_turn
    (reviews : List GitHubReview) (requestedReviewers : List GitHubUser)
    (author : String) (ms : Option String) :
    ((∀ r ∈ reviews, r.state ∈ SUBMITTED_STATES →
        lowerString r.user.login = lowerString author) →
      determineMyPrTurn reviews requestedReviewers author ms =
        (.theirTurn, "No reviews submitted yet")) ∧
    ((reviewersWhoSubmitted reviews author ≠ [] ∧
        ∀ u ∈ reviewersWhoSubmitted reviews author,
          u ∈ requestedLogins requestedReviewers) →
      determineMyPrTurn reviews requestedReviewers author ms =
        (.theirTurn, "All submitters re-requested")) := by
  constructor
  · intro hnone
    have hempty : reviewersWhoSubmitted reviews author = [] := by
      rw [List.eq_nil_iff_forall_not_mem]
      intro u hu
      obtain ⟨r, hr, ⟨hs, hne⟩, _⟩ := mem_reviewersWhoSubmitted.1 hu
      exact hne (hnone r hr hs)
    unfold determineMyPrTurn
    rw [if_pos hempty]
  · rintro ⟨h1, h2⟩
    unfold determineMyPrTurn
    rw [if_neg h1, if_pos h2]

/-- Witness for C4 at concrete inputs: an author-only COMMENTED review decides
at step 1, and a fully re-requested reviewer set decides at step 2. -/
theorem claim_C4_witness :
    ((∀ r ∈ [(⟨⟨"me"⟩, .COMMENTED⟩ : GitHubReview)], r.state ∈ SUBMITTED_STATES →
        lowerString r.user.login = lowerString "me") →
      determineMyPrTurn [⟨⟨"me"⟩, .COMMENTED⟩] [] "me" none =
        (.theirTurn, "No reviews submitted yet")) ∧
    determineMyPrTurn [⟨⟨"me"⟩, .COMMENTED⟩] [] "me" none =
      (.theirTurn, "No reviews submitted yet") ∧
    determineMyPrTurn [⟨⟨"bob"⟩, .CHANGES_REQUESTED⟩] [⟨"bob"⟩] "me" none =
      (.theirTurn, "All submitters re-requested") :=
  ⟨(claim_C4_step1_and_step2_their_turn [⟨⟨"me"⟩, .COMMENTED⟩] [] "me" none).1,
    (claim_C4_step1_and_step2_their_turn [⟨⟨"me"⟩, .COMMENTED⟩] [] "me" none).1
      (by decide),
    (claim_C4_step1_and_step2_their_turn [⟨⟨"bob"⟩, .CHANGES_REQUESTED⟩]
      [⟨"bob"⟩] "me" none).2 (by decide)⟩

/-- C5: a review-requested PR is my-turn exactly when the viewer is in the
individual requested-reviewers list (case-insensitively), or the PR was
discovered via the review-requested search and at least one team request is
pending; otherwise it is their-turn. -/
theorem claim_C5_review_request_turn_iff
    (reviews : List GitHubReview) (requestedReviewers : List GitHubUser)
    (requestedTeams : List GitHubTeam) (myUsername : String)
    (isReviewRequested : Bool) :
    ((determineReviewRequestTurn reviews requestedReviewers requestedTeams
        myUsername isReviewRequested).1 = .myTurn ↔
      (∃ r ∈ requestedReviewers,
        lowerString r.login = lowerString myUsername) ∨
        (isReviewRequested = true ∧ requestedTeams ≠ [])) ∧
    ((determineReviewRequestTurn reviews requestedReviewers requestedTeams
        myUsername isReviewRequested).1 = .theirTurn ↔
      ¬((∃ r ∈ requestedReviewers,
        lowerString r.login = lowerString myUsername) ∨
        (isReviewRequested = true ∧ requestedTeams ≠ []))) := by
  unfold determineReviewRequestTurn
  by_cases h1 : ∃ r ∈ requestedReviewers,
      lowerString r.login = lowerString myUsername
  · rw [if_pos h1]
    simp [h1]
  · rw [if_neg h1]
    by_cases h2 : isReviewRequested = true ∧ requestedTeams ≠ []
    · rw [if_pos h2]
      simp [h1, h2]
    · rw [if_neg h2]
      simp [h1, h2]

theorem latestByUser_append (reviews : List GitHubReview) (author : String)
    (x : GitHubReview) :
    latestByUser (reviews ++ [x]) author =
      latestStep author (latestByUser reviews author) x := by
  unfold latestByUser
  rw [List.foldl_append, List.foldl_cons, List.foldl_nil]

theorem summaryLatestByUser_append (reviews : List GitHubReview)
    (x : GitHubReview) :
    summaryLatestByUser (reviews ++ [x]) =
      summaryLatestStep (summaryLatestByUser reviews) x := by
  unfold summaryLatestByUser
  rw [List.foldl_append, List.foldl_cons, List.foldl_nil]

/-- C3: the effective-latest-state computation of both `determineMyPrTurn`
and `buildReviewSummary` maps [APPROVED, COMMENTED] to APPROVED,
[CHANGES_REQUESTED, COMMENTED] to CHANGES_REQUESTED, and
[CHANGES_REQUESTED, APPROVED] to APPROVED for a single reviewer, and in
general a later COMMENTED review never changes a map whose effective state
for that reviewer is APPROVED or CHANGES_REQUESTED. -/
theorem claim_C3_commented_never_overwrites (u author : String)
    (hu : lowerString u ≠ lowerString author) :
    mapGet (latestByUser [⟨⟨u⟩, .APPROVED⟩, ⟨⟨u⟩, .COMMENTED⟩] author)
      (lowerString u) = some .APPROVED ∧
    mapGet (latestByUser [⟨⟨u⟩, .CHANGES_REQUESTED⟩, ⟨⟨u⟩, .COMMENTED⟩] author)
      (lowerString u) = some .CHANGES_REQUESTED ∧
    mapGet (latestByUser [⟨⟨u⟩, .CHANGES_REQUESTED⟩, ⟨⟨u⟩, .APPROVED⟩] author)
      (lowerString u) = some .APPROVED ∧
    mapGet (summaryLatestByUser [⟨⟨u⟩, .APPROVED⟩, ⟨⟨u⟩, .COMMENTED⟩]) u =
      some .APPROVED ∧
    mapGet (summaryLatestByUser [⟨⟨u⟩, .CHANGES_REQUESTED⟩, ⟨⟨u⟩, .COMMENTED⟩]) u =
      some .CHANGES_REQUESTED ∧
    mapGet (summaryLatestByUser [⟨⟨u⟩, .CHANGES_REQUESTED⟩, ⟨⟨u⟩, .APPROVED⟩]) u =
      some .APPROVED ∧
    (∀ (reviews : List GitHubReview) (x : GitHubReview),
      x.state = .COMMENTED →
      (mapGet (latestByUser reviews author) (lowerString x.user.login) =
          some .APPROVED ∨
        mapGet (latestByUser reviews author) (lowerString x.user.login) =
          some .CHANGES_REQUESTED) →
      latestByUser (reviews ++ [x]) author = latestByUser reviews author) ∧
    (∀ (reviews : List GitHubReview) (x : GitHubReview),
      x.state = .COMMENTED →
      (mapGet (summaryLatestByUser reviews) x.user.login = some .APPROVED ∨
        mapGet (summaryLatestByUser reviews) x.user.login =
          some .CHANGES_REQUESTED) →
      summaryLatestByUser (reviews ++ [x]) = summaryLatestByUser reviews) := by
  refine ⟨?_, ?_, ?_, ?_, ?_, ?_, ?_, ?_⟩
  · simp [latestByUser, latestStep, mapGet, mapSet, SUBMITTED_STATES, hu]
  · simp [latestByUser, latestStep, mapGet, mapSet, SUBMITTED_STATES, hu]
  · simp [latestByUser, latestStep, mapGet, mapSet, SUBMITTED_STATES, hu]
  · simp [summaryLatestByUser, summaryLatestStep, mapGet, mapSet,
      SUBMITTED_STATES]
  · simp [summaryLatestByUser, summaryLatestStep, mapGet, mapSet,
      SUBMITTED_STATES]
  · simp [summaryLatestByUser, summaryLatestStep, mapGet, mapSet,
      SUBMITTED_STATES]
  · intro reviews x hx hprev
    rw [latestByUser_append]
    unfold latestStep
    by_cases hc : x.state ∈ SUBMITTED_STATES ∧
        lowerString x.user.login ≠ lowerString author
    · rw [if_pos hc]
      simp only
      rw [if_pos ⟨hprev.symm, hx⟩]
    · rw [if_neg hc]
  · intro reviews x hx hprev
    rw [summaryLatestByUser_append]
    unfold summaryLatestStep
    have hc : x.state ∈ SUBMITTED_STATES := by rw [hx]; simp [SUBMITTED_STATES]
    rw [if_pos hc]
    simp only
    rw [if_pos ⟨hprev.symm, hx⟩]

/-- Witness for C3 at concrete reviewers alice (reviewer) and bob (author). -/
theorem claim_C3_witness :
    lowerString "alice" ≠ lowerString "bob" ∧
    mapGet (latestByUser [⟨⟨"alice"⟩, .APPROVED⟩, ⟨⟨"alice"⟩, .COMMENTED⟩] "bob")
      (lowerString "alice") = some .APPROVED :=
  ⟨by decide, (claim_C3_commented_never_overwrites "alice" "bob" (by decide)).1⟩

/-- C10: the review summary does not exclude the PR author's own reviews: a
PR whose only submitted review is a COMMENTED review by its own author has
summary "1 commented", while the turn engine sees zero feedback-giving
reviewers and returns their-turn at the "No reviews submitted yet" check. -/
theorem claim_C10_summary_counts_author_review (author : String)
    (ms : Option String) :
    buildReviewSummary [⟨⟨author⟩, .COMMENTED⟩] [] [] = "1 commented" ∧
    reviewersWhoSubmitted [⟨⟨author⟩, .COMMENTED⟩] author = [] ∧
    determineMyPrTurn [⟨⟨author⟩, .COMMENTED⟩] [] author ms =
      (.theirTurn, "No reviews submitted yet") := by
  have hempty : reviewersWhoSubmitted [⟨⟨author⟩, .COMMENTED⟩] author = [] := by
    rw [List.eq_nil_iff_forall_not_mem]
    intro u hu
    obtain ⟨r, hr, ⟨_, hne⟩, _⟩ := mem_reviewersWhoSubmitted.1 hu
    simp only [List.mem_singleton] at hr
    subst hr
    exact hne rfl
  refine ⟨?_, hempty, ?_⟩
  · have hmap : summaryLatestByUser [⟨⟨author⟩, .COMMENTED⟩] =
        [(author, .COMMENTED)] := by
      simp [summaryLatestByUser, summaryLatestStep, mapGet, mapSet,
        SUBMITTED_STATES]
    simp only [buildReviewSummary, hmap, List.map_cons, List.map_nil]
    decide
  · unfold determineMyPrTurn
    rw [if_pos hempty]

theorem mapSet_keys_of_mem {β : Type} {m : List (Nat × β)} {k : Nat} {v : β}
    (h : m.any (fun p => decide (p.1 = k)) = true) :
    (mapSet m k v).map (·.1) = m.map (·.1) := by
  unfold mapSet
  rw [if_pos h, List.map_map]
  apply List.map_congr_left
  intro p _
  by_cases hp : p.1 = k
  · simp [hp]
  · simp [hp]

theorem mapSet_keys_of_not_mem {β : Type} {m : List (Nat × β)} {k : Nat} {v : β}
    (h : ¬m.any (fun p => decide (p.1 = k)) = true) :
    (mapSet m k v).map (·.1) = m.map (·.1) ++ [k] := by
  unfold mapSet
  rw [if_neg h]
  simp

theorem mem_mapSet_keys {β : Type} {m : List (Nat × β)} {k x : Nat} {v : β} :
    x ∈ (mapSet m k v).map (·.1) ↔ x ∈ m.map (·.1) ∨ x = k := by
  by_cases h : m.any (fun p => decide (p.1 = k)) = true
  · rw [mapSet_keys_of_mem h]
    constructor
    · exact Or.inl
    · rintro (hx | rfl)
      · exact hx
      · simp only [List.any_eq_true] at h
        obtain ⟨p, hp, hpk⟩ := h
        simp only [decide_eq_true_eq] at hpk
        exact hpk ▸ List.mem_map_of_mem (·.1) hp
  · rw [mapSet_keys_of_not_mem h]
    simp

theorem mapSet_keys_nodup {β : Type} {m : List (Nat × β)} {k : Nat} {v : β}
    (h : (m.map (·.1)).Nodup) : ((mapSet m k v).map (·.1)).Nodup := by
  by_cases hmem : m.any (fun p => decide (p.1 = k)) = true
  · rw [mapSet_keys_of_mem hmem]
    exact h
  · rw [mapSet_keys_of_not_mem hmem]
    rw [List.nodup_append]
    refine ⟨h, List.nodup_singleton k, ?_⟩
    intro x hx
    simp only [List.mem_singleton]
    intro hxk
    subst hxk
    obtain ⟨p, hp, hpk⟩ := List.mem_map.1 hx
    exact hmem (List.any_eq_true.2 ⟨p, hp, by simp [hpk]⟩)

theorem reviewItemsMap_fold_keys_nodup :
    ∀ (l : List GitHubSearchItem) (acc : List (Nat × GitHubSearchItem)),
      ((acc.map (·.1)).Nodup) →
      (((l.foldl (fun m it => mapSet m it.id it) acc).map (·.1)).Nodup) := by
  intro l
  induction l with
  | nil => intro acc h; exact h
  | cons it l ih =>
    intro acc h
    rw [List.foldl_cons]
    exact ih _ (mapSet_keys_nodup h)

theorem reviewItemsMap_fold_keys_mem :
    ∀ (l : List GitHubSearchItem) (acc : List (Nat × GitHubSearchItem)) (x : Nat),
      x ∈ (l.foldl (fun m it => mapSet m it.id it) acc).map (·.1) ↔
        x ∈ acc.map (·.1) ∨ x ∈ l.map (·.id) := by
  intro l
  induction l with
  | nil => simp
  | cons it l ih =>
    intro acc x
    rw [List.foldl_cons, ih]
    rw [mem_mapSet_keys]
    simp only [List.map_cons, List.mem_cons]
    tauto

theorem reviewItemsMap_fold_snd_id :
    ∀ (l : List GitHubSearchItem) (acc : List (Nat × GitHubSearchItem)),
      (∀ p ∈ acc, p.2.id = p.1) →
      ∀ p ∈ l.foldl (fun m it => mapSet m it.id it) acc, p.2.id = p.1 := by
  intro l
  induction l with
  | nil => intro acc h; exact h
  | cons it l ih =>
    intro acc h p hp
    rw [List.foldl_cons] at hp
    refine ih _ ?_ p hp
    intro q hq
    unfold mapSet at hq
    split at hq
    · obtain ⟨q', hq', hfq⟩ := List.mem_map.1 hq
      by_cases hk : q'.1 = it.id
      · rw [if_pos hk] at hfq
        rw [← hfq]
      · rw [if_neg hk] at hfq
        rw [← hfq]
        exact h q' hq'
    · rcases List.mem_append.1 hq with h' | h'
      · exact h q h'
      · simp only [List.mem_singleton] at h'
        rw [h']

/-- C6: a PR appearing in both the review-requested and reviewed-by search
result sets appears exactly once in the merged reviewer-facing set, and no
PR authored by the viewer (case-insensitively) survives the self-author
filter into the review-requested output category. -/
theorem claim_C6_dedup_and_no_self_review
    (rr rb : List GitHubSearchItem) (username : String) (i : Nat) :
    (i ∈ rr.map (·.id) → i ∈ rb.map (·.id) →
      ((mergedReviewItems rr rb).map (·.id)).count i = 1) ∧
    (∀ it ∈ dedupedReviewItems rr rb username,
      lowerString it.user.login ≠ lowerString username) := by
  constructor
  · intro h1 _h2
    have hsnd : ∀ p ∈ reviewItemsMap rr rb, p.2.id = p.1 :=
      reviewItemsMap_fold_snd_id (rr ++ rb) [] (by simp)
    have hids : (mergedReviewItems rr rb).map (·.id) =
        (reviewItemsMap rr rb).map (·.1) := by
      unfold mergedReviewItems
      rw [List.map_map]
      exact List.map_congr_left hsnd
    rw [hids]
    have hnodup : ((reviewItemsMap rr rb).map (·.1)).Nodup :=
      reviewItemsMap_fold_keys_nodup (rr ++ rb) [] (by simp)
    have hmem : i ∈ (reviewItemsMap rr rb).map (·.1) := by
      rw [show reviewItemsMap rr rb =
        (rr ++ rb).foldl (fun m it => mapSet m it.id it) [] from rfl]
      rw [reviewItemsMap_fold_keys_mem]
      right
      rw [List.map_append]
      exact List.mem_append.2 (Or.inl h1)
    exact List.count_eq_one_of_mem hnodup hmem
  · intro it hit
    unfold dedupedReviewItems at hit
    have := List.of_mem_filter hit
    simpa using this

/-- Witness for C6 at a concrete input: PR 7 appears in both search results
and once in the merged set; the viewer-authored PR 9 is filtered out. -/
theorem claim_C6_witness :
    ((7 : Nat) ∈ ([⟨7, "a", ⟨"x"⟩, "t"⟩, ⟨9, "b", ⟨"ME"⟩, "t"⟩] :
        List GitHubSearchItem).map (·.id) →
      (7 : Nat) ∈ ([⟨7, "a", ⟨"x"⟩, "t"⟩] : List GitHubSearchItem).map (·.id) →
      ((mergedReviewItems [⟨7, "a", ⟨"x"⟩, "t"⟩, ⟨9, "b", ⟨"ME"⟩, "t"⟩]
        [⟨7, "a", ⟨"x"⟩, "t"⟩]).map (·.id)).count 7 = 1) ∧
    ((mergedReviewItems [⟨7, "a", ⟨"x"⟩, "t"⟩, ⟨9, "b", ⟨"ME"⟩, "t"⟩]
        [⟨7, "a", ⟨"x"⟩, "t"⟩]).map (·.id)).count 7 = 1 ∧
    dedupedReviewItems [⟨7, "a", ⟨"x"⟩, "t"⟩, ⟨9, "b", ⟨"ME"⟩, "t"⟩]
      [⟨7, "a", ⟨"x"⟩, "t"⟩] "me" = [⟨7, "a", ⟨"x"⟩, "t"⟩] :=
  ⟨(claim_C6_dedup_and_no_self_review [⟨7, "a", ⟨"x"⟩, "t"⟩, ⟨9, "b", ⟨"ME"⟩, "t"⟩]
      [⟨7, "a", ⟨"x"⟩, "t"⟩] "me" 7).1,
    (claim_C6_dedup_and_no_self_review [⟨7, "a", ⟨"x"⟩, "t"⟩, ⟨9, "b", ⟨"ME"⟩, "t"⟩]
      [⟨7, "a", ⟨"x"⟩, "t"⟩] "me" 7).1 (by decide) (by decide),
    by decide⟩

theorem comparePrs_total (getTime : String → Int) (a b : DashboardPR) :
    comparePrs getTime a b ≤ 0 ∨ comparePrs getTime b a ≤ 0 := by
  unfold comparePrs
  cases ha : a.turnStatus <;> cases hb : b.turnStatus <;> simp_all <;> omega

theorem comparePrs_trans (getTime : String → Int) (a b c : DashboardPR)
    (hab : comparePrs getTime a b ≤ 0) (hbc : comparePrs getTime b c ≤ 0) :
    comparePrs getTime a c ≤ 0 := by
  unfold comparePrs at hab hbc ⊢
  cases ha : a.turnStatus <;> cases hb : b.turnStatus <;> cases hc : c.turnStatus <;>
    simp_all <;> omega

/-- C8: for each category, `sortPrs` returns a permutation of its input in
which every my-turn PR precedes every their-turn PR, PRs of equal verdict are
in descending update-time order, and PRs tied on both keys keep their input
order (stability). -/
theorem claim_C8_sort_order_and_stability (getTime : String → Int)
    (prs : List DashboardPR) :
    (sortPrs getTime prs).Perm prs ∧
    (sortPrs getTime prs).Pairwise (fun a b =>
      (a.turnStatus = .theirTurn → b.turnStatus = .theirTurn) ∧
      (a.turnStatus = b.turnStatus →
        getTime b.updatedAt ≤ getTime a.updatedAt)) ∧
    (∀ (v : TurnStatus) (t : Int),
      (sortPrs getTime prs).filter
          (fun p => decide (p.turnStatus = v ∧ getTime p.updatedAt = t)) =
        prs.filter
          (fun p => decide (p.turnStatus = v ∧ getTime p.updatedAt = t))) := by
  haveI htot : IsTotal DashboardPR (fun a b => comparePrs getTime a b ≤ 0) :=
    ⟨comparePrs_total getTime⟩
  haveI htrans : IsTrans DashboardPR (fun a b => comparePrs getTime a b ≤ 0) :=
    ⟨comparePrs_trans getTime⟩
  refine ⟨List.perm_insertionSort _ prs, ?_, ?_⟩
  · have hsorted := List.sorted_insertionSort
      (fun a b => comparePrs getTime a b ≤ 0) prs
    refine hsorted.imp ?_
    intro a b hr
    constructor
    · intro hath
      by_cases hsame : a.turnStatus = b.turnStatus
      · rw [← hsame, hath]
      · exfalso
        unfold comparePrs at hr
        rw [if_pos hsame] at hr
        have : ¬a.turnStatus = TurnStatus.myTurn := by
          rw [hath]
          intro h
          cases h
        rw [if_neg this] at hr
        omega
    · intro hsame
      unfold comparePrs at hr
      rw [if_neg (by simp [hsame])] at hr
      omega
  · intro v t
    set p : DashboardPR → Bool :=
      fun q => decide (q.turnStatus = v ∧ getTime q.updatedAt = t) with hp
    have hfilter_mem : ∀ q ∈ prs.filter p,
        q.turnStatus = v ∧ getTime q.updatedAt = t := by
      intro q hq
      have := List.of_mem_filter hq
      rw [hp] at this
      simpa using this
    have hpair : (prs.filter p).Pairwise
        (fun a b => comparePrs getTime a b ≤ 0) := by
      apply List.pairwise_of_forall_mem_list
      intro a ha b hb
      obtain ⟨hav, hat⟩ := hfilter_mem a ha
      obtain ⟨hbv, hbt⟩ := hfilter_mem b hb
      unfold comparePrs
      rw [if_neg (by simp [hav, hbv])]
      omega
    have hsub : (prs.filter p).Sublist (sortPrs getTime prs) :=
      List.sublist_insertionSort hpair (List.filter_sublist prs)
    have hsub2 : (prs.filter p).Sublist ((sortPrs getTime prs).filter p) := by
      have h2 := List.Sublist.filter p hsub
      have hself : (prs.filter p).filter p = prs.filter p := by
        apply List.filter_eq_self.2
        intro a ha
        exact List.of_mem_filter ha
      rwa [hself] at h2
    have hlen : ((sortPrs getTime prs).filter p).length =
        (prs.filter p).length := by
      exact ((List.perm_insertionSort _ prs).filter p).length_eq
    exact (List.Sublist.eq_of_length hsub2 hlen.symm).symm

theorem substrEq_loop_true (m : List Char) : ∀ (a b r1 r2 : List Char),
    String.substrEq.loop ⟨a ++ m ++ r1⟩ ⟨b ++ m ++ r2⟩ ⟨String.utf8Len a⟩
      ⟨String.utf8Len b⟩ ⟨String.utf8Len a + String.utf8Len m⟩ = true := by
  induction m with
  | nil =>
    intro a b r1 r2
    rw [String.substrEq.loop]
    simp
  | cons c m ih =>
    intro a b r1 r2
    rw [String.substrEq.loop]
    have hlt : String.utf8Len a < String.utf8Len a + String.utf8Len (c :: m) := by
      have := Char.utf8Size_pos c
      simp [String.utf8Len_cons]
      omega
    rw [dif_pos hlt]
    have e1 : a ++ (c :: m) ++ r1 = a ++ (c :: (m ++ r1)) := by simp
    have e2 : b ++ (c :: m) ++ r2 = b ++ (c :: (m ++ r2)) := by simp
    have g1 : (⟨a ++ (c :: m) ++ r1⟩ : String).get ⟨String.utf8Len a⟩ = c := by
      rw [e1]; exact String.get_of_valid a (c :: (m ++ r1))
    have g2 : (⟨b ++ (c :: m) ++ r2⟩ : String).get ⟨String.utf8Len b⟩ = c := by
      rw [e2]; exact String.get_of_valid b (c :: (m ++ r2))
    simp only [g1, g2, beq_self_eq_true, Bool.true_and]
    have p1 : (⟨String.utf8Len a⟩ : String.Pos) + c = ⟨String.utf8Len (a ++ [c])⟩ := by
      rw [String.Pos.addChar_eq]
      simp [String.utf8Len_append, String.utf8Len_cons]
    have p2 : (⟨String.utf8Len b⟩ : String.Pos) + c = ⟨String.utf8Len (b ++ [c])⟩ := by
      rw [String.Pos.addChar_eq]
      simp [String.utf8Len_append, String.utf8Len_cons]
    have p3 : String.utf8Len a + String.utf8Len (c :: m) =
        String.utf8Len (a ++ [c]) + String.utf8Len m := by
      simp [String.utf8Len_append, String.utf8Len_cons]
      omega
    have e3 : a ++ (c :: m) ++ r1 = (a ++ [c]) ++ m ++ r1 := by simp
    have e4 : b ++ (c :: m) ++ r2 = (b ++ [c]) ++ m ++ r2 := by simp
    rw [p1, p2, p3, e3, e4]
    exact ih (a ++ [c]) (b ++ [c]) r1 r2

theorem substrEq_loop_head_ne (s1 s2 : String) (c d : Char) (cs ds : List Char)
    (h1 : s1.data = c :: cs) (h2 : s2.data = d :: ds) (hne : c ≠ d)
    (stop : String.Pos) (hstop : 0 < stop.byteIdx) :
    String.substrEq.loop s1 s2 0 0 stop = false := by
  rw [String.substrEq.loop]
  have hstop2 : String.Pos.byteIdx 0 < stop.byteIdx := hstop
  rw [dif_pos hstop2]
  have g1 : s1.get 0 = c := by
    obtain ⟨sd⟩ := s1
    simp only at h1
    subst h1
    exact String.get_of_valid [] (c :: cs)
  have g2 : s2.get 0 = d := by
    obtain ⟨sd⟩ := s2
    simp only at h2
    subst h2
    exact String.get_of_valid [] (d :: ds)
  simp only [g1, g2]
  simp [hne]

theorem startsWith_append (p t : String) : (p ++ t).startsWith p = true := by
  rw [String.startsWith]
  have hv := (String.validFor_toSubstring (p ++ t)).take p.length
  have hvB := String.validFor_toSubstring p
  have htake : (p ++ t).data.take p.length = p.data := by
    rw [String.data_append]
    exact List.take_left p.data t.data
  rw [htake] at hv
  change Substring.beq _ _ = true
  unfold Substring.beq
  rw [hv.bsize, hv.str, hv.startPos, hvB.bsize, hvB.str, hvB.startPos]
  simp only [beq_self_eq_true, Bool.true_and]
  unfold String.substrEq
  have hl := substrEq_loop_true p.data [] []
    (List.drop p.length (p ++ t).data ++ []) []
  simp only [String.utf8Len_nil, Nat.zero_add, List.nil_append,
    List.append_nil] at hl ⊢
  rw [hl]
  simp [String.endPos_eq, String.utf8Len_append]

theorem startsWith_head_ne (s p : String) (c d : Char) (cs ds : List Char)
    (hs : s.data = c :: cs) (hp : p.data = d :: ds) (hne : c ≠ d) :
    s.startsWith p = false := by
  rw [String.startsWith]
  have hv := (String.validFor_toSubstring s).take p.length
  have hvB := String.validFor_toSubstring p
  have hlen : p.length = ds.length + 1 := by
    show p.data.length = _
    rw [hp]
    simp
  have htake : s.data.take p.length = c :: cs.take ds.length := by
    rw [hs, hlen]
    simp
  rw [htake] at hv
  change Substring.beq _ _ = false
  unfold Substring.beq
  rw [hv.bsize, hv.str, hv.startPos, hvB.bsize, hvB.str, hvB.startPos]
  have hloop : String.substrEq.loop
      ⟨[] ++ (c :: cs.take ds.length) ++ (s.data.drop p.length ++ [])⟩
      ⟨[] ++ p.data ++ []⟩ ⟨String.utf8Len ([] : List Char)⟩
      ⟨String.utf8Len ([] : List Char)⟩
      ⟨(⟨String.utf8Len ([] : List Char)⟩ : String.Pos).byteIdx +
        String.utf8Len (c :: cs.take ds.length)⟩ = false := by
    apply substrEq_loop_head_ne _ _ c d
      (cs.take ds.length ++ (s.data.drop p.length ++ [])) ds
    · simp
    · simp [hp]
    · exact hne
    · simp only [String.utf8Len_nil, String.utf8Len_cons]
      have := Char.utf8Size_pos c
      omega
  unfold String.substrEq
  rw [hloop]
  simp

theorem githubFetchError_rate_limited (fmtTime : String → String)
    (res : HttpResponse) (hok : resOk res = false)
    (hrl : isRateLimitedResponse res = true) :
    githubFetchError fmtTime res =
      some ("RATE_LIMITED: GitHub API rate limit exceeded." ++
        (match res.rateLimitReset with
         | some h => " Resets at " ++ fmtTime h ++ "."
         | none => "")) := by
  unfold githubFetchError
  rw [if_neg (by rw [hok]; exact Bool.false_ne_true), if_pos hrl]

theorem searchFailureResponse_rate_limited_code (t : String) :
    (searchFailureResponse ("RATE_LIMITED:" ++ t)).1 = ErrorCode.RATE_LIMITED := by
  unfold searchFailureResponse
  rw [if_pos (startsWith_append "RATE_LIMITED:" t)]

/-- C9: a non-success response is classified as rate-limited exactly when the
status is 429, or 403 with a zero remaining-quota header; the rate-limit
message embeds the formatted reset time when the reset header is present;
every other failure carries the status and a 200-character body excerpt; and
the route maps these messages to the codes RATE_LIMITED and GITHUB_API_ERROR
respectively. -/
theorem claim_C9_rate_limit_classification (fmtTime : String → String)
    (res : HttpResponse) (hok : resOk res = false) :
    (isRateLimitedResponse res = true ↔
      (res.status = 429 ∨
        (res.status = 403 ∧ res.rateLimitRemaining = some "0"))) ∧
    (isRateLimitedResponse res = true →
      (∀ h, res.rateLimitReset = some h →
        githubFetchError fmtTime res =
          some ("RATE_LIMITED: GitHub API rate limit exceeded. Resets at " ++
            fmtTime h ++ ".")) ∧
      (res.rateLimitReset = none →
        githubFetchError fmtTime res =
          some "RATE_LIMITED: GitHub API rate limit exceeded.") ∧
      (∀ msg, githubFetchError fmtTime res = some msg →
        (searchFailureResponse msg).1 = ErrorCode.RATE_LIMITED)) ∧
    (isRateLimitedResponse res = false →
      githubFetchError fmtTime res =
        some ("GitHub API " ++ toString res.status ++ ": " ++ res.statusText ++
          " - " ++ res.body.take 200) ∧
      (searchFailureResponse ("GitHub API " ++ toString res.status ++ ": " ++
          res.statusText ++ " - " ++ res.body.take 200)).1 =
        ErrorCode.GITHUB_API_ERROR) := by
  have hsplit : "RATE_LIMITED: GitHub API rate limit exceeded." =
      "RATE_LIMITED:" ++ " GitHub API rate limit exceeded." := by decide
  refine ⟨?_, ?_, ?_⟩
  · unfold isRateLimitedResponse
    exact decide_eq_true_iff
  · intro hrl
    refine ⟨?_, ?_, ?_⟩
    · intro h hh
      rw [githubFetchError_rate_limited fmtTime res hok hrl, hh]
      congr 1
    · intro hh
      rw [githubFetchError_rate_limited fmtTime res hok hrl, hh]
      simp
    · intro msg hmsg
      rw [githubFetchError_rate_limited fmtTime res hok hrl] at hmsg
      have hmsg2 : msg = "RATE_LIMITED:" ++ (" GitHub API rate limit exceeded." ++
          (match res.rateLimitReset with
           | some h => " Resets at " ++ fmtTime h ++ "."
           | none => "")) := by
        have := Option.some.inj hmsg
        rw [← this, hsplit, String.append_assoc]
      rw [hmsg2]
      exact searchFailureResponse_rate_limited_code _
  · intro hrl
    have herr : githubFetchError fmtTime res =
        some ("GitHub API " ++ toString res.status ++ ": " ++ res.statusText ++
          " - " ++ res.body.take 200) := by
      unfold githubFetchError
      rw [if_neg (by rw [hok]; exact Bool.false_ne_true),
        if_neg (by rw [hrl]; exact Bool.false_ne_true)]
    refine ⟨herr, ?_⟩
    unfold searchFailureResponse
    have hhead : ∃ rest, ("GitHub API " ++ toString res.status ++ ": " ++
        res.statusText ++ " - " ++ res.body.take 200).data = 'G' :: rest := by
      refine ⟨"itHub API ".data ++ (toString res.status).data ++ ": ".data ++
        res.statusText.data ++ (" - ").data ++ (res.body.take 200).data, ?_⟩
      rw [String.data_append, String.data_append, String.data_append,
        String.data_append, String.data_append]
      simp
    obtain ⟨rest, hrest⟩ := hhead
    rw [if_neg ?_]
    intro hsw
    rw [startsWith_head_ne _ _ 'G' 'R' rest "ATE_LIMITED:".data hrest rfl
      (by decide)] at hsw
    exact Bool.false_ne_true hsw

/-- Witness for C9 at a concrete 403 response with zero remaining quota and a
reset header. -/
theorem claim_C9_witness :
    resOk ⟨403, "Forbidden", some "0", some "1700000000", "limited"⟩ = false ∧
    (isRateLimitedResponse ⟨403, "Forbidden", some "0", some "1700000000",
        "limited"⟩ = true ↔
      ((403 : Nat) = 429 ∨ ((403 : Nat) = 403 ∧
        (some "0" : Option String) = some "0"))) :=
  ⟨by decide,
    (claim_C9_rate_limit_classification (fun s => s)
      ⟨403, "Forbidden", some "0", some "1700000000", "limited"⟩ (by decide)).1⟩

theorem digitChar_isDigit : ∀ m, m < 10 → (Nat.digitChar m).isDigit = true := by
  decide

theorem toDigitsCore_length (b : Nat) :
    ∀ (fuel n : Nat) (ds : List Char),
      ds.length ≤ (Nat.toDigitsCore b fuel n ds).length := by
  intro fuel
  induction fuel with
  | zero => intro n ds; simp [Nat.toDigitsCore]
  | succ fuel ih =>
    intro n ds
    rw [Nat.toDigitsCore]
    split
    · simp
    · calc ds.length ≤ (Nat.digitChar (n % b) :: ds).length := by simp
        _ ≤ _ := ih _ _

theorem toDigitsCore_head_digit :
    ∀ (fuel n : Nat) (ds : List Char),
      (∀ c, ds.head? = some c → c.isDigit = true) →
      ∀ c, (Nat.toDigitsCore 10 fuel n ds).head? = some c → c.isDigit = true := by
  intro fuel
  induction fuel with
  | zero =>
    intro n ds h c hc
    rw [Nat.toDigitsCore] at hc
    exact h c hc
  | succ fuel ih =>
    intro n ds h c hc
    rw [Nat.toDigitsCore] at hc
    split at hc
    · simp only [List.head?_cons, Option.some.injEq] at hc
      rw [← hc]
      exact digitChar_isDigit _ (Nat.mod_lt _ (by omega))
    · refine ih _ _ ?_ c hc
      intro c' hc'
      simp only [List.head?_cons, Option.some.injEq] at hc'
      rw [← hc']
      exact digitChar_isDigit _ (Nat.mod_lt _ (by omega))

theorem toString_nat_head (n : Nat) :
    ∃ c rest, (toString n).data = c :: rest ∧ c.isDigit = true := by
  have hdata : (toString n).data = Nat.toDigits 10 n := rfl
  have hlen : 1 ≤ (Nat.toDigits 10 n).length := by
    rw [Nat.toDigits, Nat.toDigitsCore]
    split
    · simp
    · calc 1 = [Nat.digitChar (n % 10)].length := by simp
        _ ≤ _ := toDigitsCore_length 10 _ _ _
  obtain ⟨c, rest, hcr⟩ : ∃ c rest, Nat.toDigits 10 n = c :: rest := by
    cases h : Nat.toDigits 10 n with
    | nil => rw [h] at hlen; simp at hlen
    | cons c rest => exact ⟨c, rest, rfl⟩
  refine ⟨c, rest, by rw [hdata, hcr], ?_⟩
  have := toDigitsCore_head_digit (n + 1) n [] (by simp) c
  rw [Nat.toDigits] at hcr
  exact this (by rw [hcr]; rfl)

theorem intercalate_go_split (s : String) :
    ∀ (as : List String) (acc : String),
      ∃ t, String.intercalate.go acc s as = acc ++ t := by
  intro as
  induction as with
  | nil =>
    intro acc
    exact ⟨"", by rw [String.intercalate.go]; simp⟩
  | cons a as ih =>
    intro acc
    obtain ⟨t, ht⟩ := ih (acc ++ s ++ a)
    refine ⟨s ++ a ++ t, ?_⟩
    rw [String.intercalate.go, ht]
    rw [String.append_assoc, String.append_assoc, String.append_assoc]

theorem intercalate_digit_ne (l : List String)
    (hl : ∀ x ∈ l, ∃ c r, x.data = c :: r ∧ c.isDigit = true)
    (hne : l ≠ []) : String.intercalate ", " l ≠ "No reviews" := by
  obtain ⟨x, xs, rfl⟩ : ∃ x xs, l = x :: xs := by
    cases l with
    | nil => exact absurd rfl hne
    | cons x xs => exact ⟨x, xs, rfl⟩
  obtain ⟨c, r, hx, hc⟩ := hl x (List.mem_cons_self x xs)
  rw [String.intercalate]
  obtain ⟨t, ht⟩ := intercalate_go_split ", " xs x
  rw [ht]
  intro heq
  have hdata := congrArg String.data heq
  rw [String.data_append, hx] at hdata
  have hhead : c = 'N' := by
    have : (c :: (r ++ t.data)).head? = ("No reviews".data).head? := by
      rw [← hdata]
      simp
    simpa using this
  rw [hhead] at hc
  exact absurd hc (by decide)

theorem summaryLatestByUser_val_mem {reviews : List GitHubReview} :
    ∀ p ∈ summaryLatestByUser reviews, p.2 ∈ SUBMITTED_STATES := by
  have aux : ∀ (l : List GitHubReview) (acc : List (String × ReviewState)),
      (∀ p ∈ acc, p.2 ∈ SUBMITTED_STATES) →
      ∀ p ∈ l.foldl summaryLatestStep acc, p.2 ∈ SUBMITTED_STATES := by
    intro l
    induction l with
    | nil => intro acc h; exact h
    | cons r l ih =>
      intro acc h p hp
      rw [List.foldl_cons] at hp
      refine ih _ ?_ p hp
      intro q hq
      unfold summaryLatestStep at hq
      by_cases hs : r.state ∈ SUBMITTED_STATES
      · rw [if_pos hs] at hq
        simp only at hq
        split at hq
        · exact h q hq
        · rcases mem_mapSet hq with h' | h'
          · exact h q h'
          · rw [h']
            exact hs
      · rw [if_neg hs] at hq
        exact h q hq
  intro p hp
  exact aux reviews [] (by simp) p hp

theorem buildReviewSummary_no_reviews_iff (reviews : List GitHubReview)
    (users : List GitHubUser) (teams : List GitHubTeam) :
    buildReviewSummary reviews users teams = "No reviews" ↔
      (users.length + teams.length = 0 ∧
        ∀ p ∈ summaryLatestByUser reviews, p.2 = ReviewState.DISMISSED) := by
  simp only [buildReviewSummary]
  set L := summaryLatestByUser reviews with hL
  set vals := List.map (fun x => x.2) L with hvals
  set nA := List.count ReviewState.APPROVED vals with hnA
  set nC := List.count ReviewState.CHANGES_REQUESTED vals with hnC
  set nM := List.count ReviewState.COMMENTED vals with hnM
  set nP := users.length + teams.length with hnP
  set sfx := (if teams.length > 0 then
      (" (" ++ toString teams.length ++ " team" ++
        if teams.length > 1 then "s" else "") ++ ")"
    else "") with hsfx
  set parts := (((if nA > 0 then [toString nA ++ " approved"] else []) ++
      (if nC > 0 then [toString nC ++ " changes requested"] else [])) ++
      (if nM > 0 then [toString nM ++ " commented"] else [])) ++
      (if nP > 0 then [toString nP ++ " pending" ++ sfx] else []) with hparts
  have hdigit : ∀ x ∈ parts, ∃ c r, x.data = c :: r ∧ c.isDigit = true := by
    intro x hx
    rw [hparts] at hx
    have hone : ∀ (n : Nat) (suf : String), x = toString n ++ suf →
        ∃ c r, x.data = c :: r ∧ c.isDigit = true := by
      intro n suf hxe
      obtain ⟨c, rest, hd, hdig⟩ := toString_nat_head n
      refine ⟨c, rest ++ suf.data, ?_, hdig⟩
      rw [hxe, String.data_append, hd]
      simp
    rcases List.mem_append.1 hx with hx | hx
    · rcases List.mem_append.1 hx with hx | hx
      · rcases List.mem_append.1 hx with hx | hx
        · split at hx
          · exact hone nA " approved" (by simpa using hx)
          · simp at hx
        · split at hx
          · exact hone nC " changes requested" (by simpa using hx)
          · simp at hx
      · split at hx
        · exact hone nM " commented" (by simpa using hx)
        · simp at hx
    · split at hx
      · have hxe : x = toString nP ++ (" pending" ++ sfx) := by
          simpa [String.append_assoc] using hx
        exact hone nP (" pending" ++ sfx) hxe
      · simp at hx
  constructor
  · intro h
    by_cases hne : parts = []
    · rw [hparts] at hne
      simp only [List.append_eq_nil] at hne
      obtain ⟨⟨⟨hA, hC⟩, hM⟩, hP⟩ := hne
      have hnA0 : nA = 0 := by
        by_contra h9
        rw [if_pos (by omega)] at hA
        simp at hA
      have hnC0 : nC = 0 := by
        by_contra h9
        rw [if_pos (by omega)] at hC
        simp at hC
      have hnM0 : nM = 0 := by
        by_contra h9
        rw [if_pos (by omega)] at hM
        simp at hM
      have hnP0 : nP = 0 := by
        by_contra h9
        rw [if_pos (by omega)] at hP
        simp at hP
      refine ⟨hnP0, ?_⟩
      intro p hp
      have hval : p.2 ∈ SUBMITTED_STATES := by
        apply summaryLatestByUser_val_mem p
        rw [← hL]
        exact hp
      have hmem : p.2 ∈ vals := by
        rw [hvals]
        exact List.mem_map_of_mem _ hp
      cases hp2 : p.2 with
      | APPROVED =>
        rw [hp2] at hmem
        have := List.count_pos_iff.2 hmem
        omega
      | CHANGES_REQUESTED =>
        rw [hp2] at hmem
        have := List.count_pos_iff.2 hmem
        omega
      | COMMENTED =>
        rw [hp2] at hmem
        have := List.count_pos_iff.2 hmem
        omega
      | DISMISSED => rfl
      | PENDING =>
        rw [hp2] at hval
        exact absurd hval (by decide)
    · rw [if_pos hne] at h
      exact absurd h (intercalate_digit_ne parts hdigit hne)
  · rintro ⟨h1, h2⟩
    have hcount0 : ∀ s : ReviewState, s ≠ ReviewState.DISMISSED →
        List.count s vals = 0 := by
      intro s hs
      apply List.count_eq_zero.2
      intro hmem
      rw [hvals] at hmem
      obtain ⟨p, hp, hp2⟩ := List.mem_map.1 hmem
      exact hs (hp2 ▸ h2 p hp)
    have hnA0 : nA = 0 := by rw [hnA]; exact hcount0 _ (by decide)
    have hnC0 : nC = 0 := by rw [hnC]; exact hcount0 _ (by decide)
    have hnM0 : nM = 0 := by rw [hnM]; exact hcount0 _ (by decide)
    have hparts_nil : parts = [] := by
      rw [hparts, if_neg (by omega), if_neg (by omega), if_neg (by omega),
        if_neg (by omega)]
      simp
    rw [if_neg (by rw [hparts_nil]; simp)]

/-- C7 counterexample: a PR whose only review is a submitted (non-PENDING)
DISMISSED review, with no pending request, still reports "No reviews", so
the summary is not "No reviews" exactly when no submitted review and no
pending request exists. -/
theorem claim_C7_counterexample :
    buildReviewSummary [⟨⟨"alice"⟩, .DISMISSED⟩] [] [] = "No reviews" ∧
    (⟨⟨"alice"⟩, .DISMISSED⟩ : GitHubReview).state ≠ .PENDING ∧
    (⟨⟨"alice"⟩, .DISMISSED⟩ : GitHubReview).state ∈ SUBMITTED_STATES := by
  decide

/-- C7 amended: the summary is the bucketed counts of latest effective state
plus a pending count annotated with the team count (illustrated on
representative inputs), and it equals "No reviews" exactly when there is no
pending request and every reviewer's effective latest state is DISMISSED
(vacuously so when no submitted review exists). -/
theorem claim_C7_amended_summary (reviews : List GitHubReview)
    (users : List GitHubUser) (teams : List GitHubTeam) :
    (buildReviewSummary reviews users teams = "No reviews" ↔
      (users.length + teams.length = 0 ∧
        ∀ p ∈ summaryLatestByUser reviews, p.2 = ReviewState.DISMISSED)) ∧
    buildReviewSummary
        [⟨⟨"a"⟩, .APPROVED⟩, ⟨⟨"b"⟩, .CHANGES_REQUESTED⟩, ⟨⟨"c"⟩, .COMMENTED⟩]
        [⟨"d"⟩] [⟨"t"⟩] =
      "1 approved, 1 changes requested, 1 commented, 2 pending (1 team)" ∧
    buildReviewSummary [⟨⟨"a"⟩, .APPROVED⟩, ⟨⟨"a"⟩, .DISMISSED⟩] [] [] =
      "No reviews" :=
  ⟨buildReviewSummary_no_reviews_iff reviews users teams, by decide, by decide⟩

end Dashboard
